import Mathlib

/-!
Verification of the Subaru telemetry platform core against its specification.

The development shallowly embeds the protocol- and reliability-critical code:

* `src/telemetry/ssm_logger.py` — SSM2 frame codec (`SSM2Client._build_frame`,
  `SSM2Client._parse_frames`), the bounded JSONL spool (`JsonlSpool`), the
  RomRaider expression sandbox (`normalize_expr`, `compile_expr`), parameter
  decoding (`decode_raw_value`, `decode_rr_params`), the chunked multi-address
  read (`read_chunked`) and the spool flusher (`flush_spool`).
* `src/gps/mqtt_gps_map_server_latest.py` — the lap-timing state machine
  (`LapTiming.update`), the records store (`DriverRecordsStore`), and the GPS
  ingress state update (`SharedState.update`).

Machine bytes are modelled as `Nat` (with `% 256` where the code masks),
Python floats as `ℚ` (the claims under study are control-flow and algebraic
properties, insensitive to rounding), strings as `List Char` where character
level reasoning is needed, and fallible calls as `Option`/`Except`.
-/

/-! ## SSM2 frame codec (`ssm_logger.py`, `checksum`, `SSM2Client._build_frame`,
`SSM2Client._parse_frames`) -/

/-- `checksum(data) = sum(data) & 0xFF`: low byte of the sum of the bytes. -/
def ssmChecksum (data : List Nat) : Nat := data.sum % 256

/-- `SSM2Client._build_frame`: `0x80 | dst=ecu_addr | src=0xF0 | len | payload
| checksum`; raises (`none`) when the payload exceeds 255 bytes. -/
def build_frame (ecu_addr : Nat) (payload : List Nat) : Option (List Nat) :=
  if payload.length > 0xFF then none
  else
    let head := [0x80, ecu_addr, 0xF0, payload.length]
    let msg := head ++ payload
    some (msg ++ [ssmChecksum msg])

/-- Worker for `SSM2Client._parse_frames`.  The Python loop walks an index `i`
over the buffer and finally trims `buf[:i]`; each iteration either advances
`i` by one byte or consumes a whole frame, so the number of iterations is
bounded by the buffer length, which is the structural fuel here.  The
consuming recursion returns the same `(frames, remaining buffer)` pair. -/
def parse_go : Nat → List Nat → List (List Nat) × List Nat
  | 0, buf => ([], buf)
  | fuel + 1, buf =>
    if buf.length < 5 then ([], buf)
    else if buf.headD 0 ≠ 0x80 then parse_go fuel buf.tail
    else
      let payload_len := buf.getD 3 0
      let flen := 4 + payload_len + 1
      if buf.length < flen then ([], buf)
      else
        let frame := buf.take flen
        if ssmChecksum (frame.take (flen - 1)) = frame.getD (flen - 1) 0 then
          let rest := parse_go fuel (buf.drop flen)
          (frame :: rest.1, rest.2)
        else
          parse_go fuel buf.tail

/-- `SSM2Client._parse_frames`: scan the rolling buffer for the `0x80`
sentinel; once a header and the declared length are available validate the
trailing checksum; on mismatch advance one byte (resync). -/
def parse_frames (buf : List Nat) : List (List Nat) × List Nat :=
  parse_go buf.length buf

/-- The bytes of a frame strictly between the length byte and the checksum. -/
def frame_payload (frame : List Nat) : List Nat := (frame.drop 4).dropLast

example : build_frame 0x10 [] = some [0x80, 0x10, 0xF0, 0, 0x80] := by decide

example : build_frame 0x10 [10, 20] = some [0x80, 0x10, 0xF0, 2, 10, 20, 0xA0] := by
  decide

/-- The parser consumes nothing and emits nothing on an empty buffer. -/
theorem parse_go_nil (fuel : Nat) : parse_go fuel [] = ([], []) := by
  cases fuel <;> simp [parse_go]

/-- Resync: a leading byte that is not the `0x80` sentinel is skipped. -/
theorem parse_frames_cons_ne (b : Nat) (x : List Nat) (hb : b ≠ 0x80)
    (hx : 4 ≤ x.length) : parse_frames (b :: x) = parse_frames x := by
  show parse_go (x.length + 1) (b :: x) = parse_frames x
  rw [parse_go]
  simp only [List.length_cons, List.headD_cons, List.tail_cons]
  rw [if_neg (by omega), if_pos hb]
  rfl

/-- A well-formed frame standing alone in the buffer parses to exactly itself
with nothing left over. -/
theorem parse_frames_exact (ecu : Nat) (P : List Nat) :
    parse_frames (([0x80, ecu, 0xF0, P.length] ++ P)
        ++ [ssmChecksum ([0x80, ecu, 0xF0, P.length] ++ P)])
      = ([([0x80, ecu, 0xF0, P.length] ++ P)
          ++ [ssmChecksum ([0x80, ecu, 0xF0, P.length] ++ P)]], []) := by
  set msg := [0x80, ecu, 0xF0, P.length] ++ P with hmsg
  set c := ssmChecksum msg with hc
  have hml : msg.length = 4 + P.length := by
    rw [hmsg]; simp only [List.length_append, List.length_cons, List.length_nil]
    try omega
  have hlen : (msg ++ [c]).length = 4 + P.length + 1 := by
    simp only [List.length_append, List.length_cons, List.length_nil, hml]
  show parse_go ((msg ++ [c]).length) (msg ++ [c]) = _
  rw [hlen, parse_go]
  rw [if_neg (by rw [hlen]; omega)]
  have hhead : (msg ++ [c]).headD 0 = 0x80 := by rw [hmsg]; rfl
  rw [if_neg (by rw [hhead]; simp)]
  have hgetD3 : (msg ++ [c]).getD 3 0 = P.length := by
    rw [List.getD_append _ _ _ _ (by omega)]
    rw [hmsg]; rfl
  simp only [hgetD3]
  rw [if_neg (by rw [hlen]; omega)]
  have htake : (msg ++ [c]).take (4 + P.length + 1) = msg ++ [c] := by
    rw [← hlen, List.take_length]
  have htake' : (msg ++ [c]).take (4 + P.length + 1 - 1) = msg := by
    simp only [Nat.add_sub_cancel]
    exact List.take_left' hml
  have hgetc : (msg ++ [c]).getD (4 + P.length + 1 - 1) 0 = c := by
    simp only [Nat.add_sub_cancel]
    rw [List.getD_append_right _ _ _ _ (le_of_eq hml)]
    rw [hml, Nat.sub_self]
    rfl
  rw [htake, htake', hgetc]
  rw [if_pos rfl]
  have hdrop : (msg ++ [c]).drop (4 + P.length + 1) = [] := by
    rw [← hlen, List.drop_length]
  rw [hdrop, parse_go_nil]

/-- C1, counterexample.  The claim quantifies over *any* garbage prefix, but a
checksum-valid spurious frame can start inside the garbage and swallow the
head of the real frame.  With garbage `80 DE 00 02` before the frame of the
empty payload (`80 10 F0 00 80`), the parser accepts the spurious frame
`80 DE 00 02 80 10 F0` (its checksum byte `F0` matches), so the single parsed
frame carries payload `[0x80, 0x10]`, not the built payload `[]`. -/
theorem c1_resync_counterexample :
    build_frame 0x10 [] = some [0x80, 0x10, 0xF0, 0x00, 0x80] ∧
    (parse_frames ([0x80, 0xDE, 0x00, 0x02]
        ++ [0x80, 0x10, 0xF0, 0x00, 0x80])).1.map frame_payload
      = [[0x80, 0x10]] ∧ ([[0x80, 0x10]] : List (List Nat)) ≠ [[]] := by
  decide

/-- C1, amended.  For every payload `P` with `|P| ≤ 255` and every garbage
prefix containing no `0x80` sentinel byte, `_build_frame` succeeds and feeding
`garbage ++ frame(P)` to `_parse_frames` yields exactly one frame — the built
one — with an empty remainder, and the bytes between the length byte and the
checksum of that frame are exactly `P`. -/
theorem c1_frame_roundtrip_resync (ecu : Nat) (P garbage : List Nat)
    (hP : P.length ≤ 255) (hg : ∀ b ∈ garbage, b ≠ 0x80) :
    ∃ f, build_frame ecu P = some f ∧ parse_frames (garbage ++ f) = ([f], [])
      ∧ frame_payload f = P := by
  refine ⟨([0x80, ecu, 0xF0, P.length] ++ P)
      ++ [ssmChecksum ([0x80, ecu, 0xF0, P.length] ++ P)], ?_, ?_, ?_⟩
  · unfold build_frame
    rw [if_neg (by omega)]
  · induction garbage with
    | nil => simpa using parse_frames_exact ecu P
    | cons b gs ih =>
      rw [List.cons_append,
        parse_frames_cons_ne b _ (hg b (List.mem_cons_self b gs))
          (by simp [List.length_append]; omega)]
      exact ih (fun b hb => hg b (List.mem_cons_of_mem _ hb))
  · unfold frame_payload
    rw [List.append_assoc, List.drop_left' (by rfl)]
    simp

/-- C1, witness: the amended round trip at a concrete payload and garbage. -/
theorem c1_frame_roundtrip_resync_witness :
    ∃ f, build_frame 0x10 [10, 20] = some f
      ∧ parse_frames ([1, 2, 3] ++ f) = ([f], []) ∧ frame_payload f = [10, 20] :=
  c1_frame_roundtrip_resync 0x10 [10, 20] [1, 2, 3] (by decide) (by decide)


/-! ## Bounded JSONL spool (`ssm_logger.py`, class `JsonlSpool`) -/

/-- State of `JsonlSpool`: the spool file's lines (one serialized record per
line, modelled as character lists), the modulo-100 append counter and the
bound `max_entries`. -/
structure JsonlSpool where
  lines : List (List Char)
  append_counter : Nat
  max_entries : Nat
deriving DecidableEq

/-- A fresh spool over an absent file (`__init__`). -/
def JsonlSpool.empty (max_entries : Nat) : JsonlSpool :=
  { lines := [], append_counter := 0, max_entries := max_entries }

/-- Python's negative-index tail slice `l[-n:]`.  For `n ≥ 1` it is the last
`n` elements; for `n = 0` the slice is `l[-0:] = l[0:]`, the **whole** list,
not the empty one. -/
def pySliceLast {α : Type} (n : Nat) (l : List α) : List α :=
  if n = 0 then l else l.drop (l.length - n)

/-- `JsonlSpool.trim`: when the file holds more than `max_entries` lines,
rewrite it keeping `lines[-max_entries:]` — the last `max_entries` lines,
except that at `max_entries = 0` the slice keeps every line (the rewrite is a
content no-op). -/
def JsonlSpool.trim (sp : JsonlSpool) : JsonlSpool :=
  if sp.lines.length ≤ sp.max_entries then sp
  else { sp with lines := pySliceLast sp.max_entries sp.lines }

/-- `JsonlSpool.append`: write the serialized line, bump the counter, and on
every 100th append reset the counter and trim. -/
def JsonlSpool.append (sp : JsonlSpool) (line : List Char) : JsonlSpool :=
  let sp1 := { sp with
    lines := sp.lines ++ [line]
    append_counter := sp.append_counter + 1 }
  if sp1.append_counter ≥ 100 then
    JsonlSpool.trim { sp1 with append_counter := 0 }
  else sp1

/-- `JsonlSpool.depth`: number of lines in the file. -/
def JsonlSpool.depth (sp : JsonlSpool) : Nat := sp.lines.length

/-- A sequence of `append` calls. -/
def JsonlSpool.appendAll (sp : JsonlSpool) (ls : List (List Char)) : JsonlSpool :=
  ls.foldl JsonlSpool.append sp

/-- Unfolding equation for `append` convenient for case analysis. -/
theorem JsonlSpool.append_eq (sp : JsonlSpool) (line : List Char) :
    sp.append line
      = if sp.append_counter + 1 ≥ 100 then
          JsonlSpool.trim { sp with
            lines := sp.lines ++ [line]
            append_counter := 0 }
        else { sp with
          lines := sp.lines ++ [line]
          append_counter := sp.append_counter + 1 } := rfl

/-- For a positive bound, `trim` leaves at most `max_entries` lines.  (At
`max_entries = 0` the `lines[-0:]` slice keeps everything, see
`JsonlSpool.trim_zero`.) -/
theorem JsonlSpool.trim_le (sp : JsonlSpool) (hm : 1 ≤ sp.max_entries) :
    (sp.trim).lines.length ≤ sp.max_entries := by
  unfold JsonlSpool.trim
  split
  · assumption
  · unfold pySliceLast
    rw [if_neg (by omega)]
    simp only [List.length_drop]
    omega

/-- At `max_entries = 0` the trim rewrite keeps every line. -/
theorem JsonlSpool.trim_zero (sp : JsonlSpool) (hm : sp.max_entries = 0) :
    (sp.trim).lines = sp.lines := by
  unfold JsonlSpool.trim
  split
  · rfl
  · unfold pySliceLast
    rw [if_pos hm]

/-- `trim` keeps a suffix (the newest lines) of the file. -/
theorem JsonlSpool.trim_suffix (sp : JsonlSpool) : (sp.trim).lines <:+ sp.lines := by
  unfold JsonlSpool.trim
  split
  · exact List.suffix_refl _
  · unfold pySliceLast
    split
    · exact List.suffix_refl _
    · exact List.drop_suffix _ _

theorem JsonlSpool.trim_max (sp : JsonlSpool) :
    (sp.trim).max_entries = sp.max_entries := by
  unfold JsonlSpool.trim
  split <;> rfl

theorem JsonlSpool.trim_counter (sp : JsonlSpool) :
    (sp.trim).append_counter = sp.append_counter := by
  unfold JsonlSpool.trim
  split <;> rfl

/-- C2, counterexample.  `trim` only runs on every 100th append, so
`depth ≤ max_entries` does not hold after every sequence of appends: with
`max_entries = 1`, two appends leave depth 2. -/
theorem c2_depth_bound_counterexample :
    (((JsonlSpool.empty 1).append ['a']).append ['b']).depth = 2 ∧ ¬(2 ≤ 1) := by
  decide

/-- C2, amended.  For any positive bound `max_entries` (at `max_entries = 0`
the `lines[-0:]` slice keeps every line and nothing is ever dropped), after
any sequence of `append` calls on a fresh spool the depth can exceed
`max_entries` by at most 99 (the appends since the last modulo-100 trim):
`depth ≤ max_entries + (n % 100)` where `n` counts the appends, hence
`depth ≤ max_entries + 99`, and `depth ≤ max_entries` whenever `n` is a
multiple of 100.  The surviving lines are always a suffix of the appended
lines — the newest `depth` lines in insertion order (oldest dropped on
overflow). -/
theorem c2_spool_depth_bounded (m : Nat) (hm : 1 ≤ m) (ls : List (List Char)) :
    ((JsonlSpool.empty m).appendAll ls).append_counter = ls.length % 100
    ∧ ((JsonlSpool.empty m).appendAll ls).depth
        ≤ m + ((JsonlSpool.empty m).appendAll ls).append_counter
    ∧ ((JsonlSpool.empty m).appendAll ls).lines <:+ ls
    ∧ ((JsonlSpool.empty m).appendAll ls).depth ≤ m + 99
    ∧ (ls.length % 100 = 0 → ((JsonlSpool.empty m).appendAll ls).depth ≤ m) := by
  have key : ∀ l : List (List Char),
      ((JsonlSpool.empty m).appendAll l).max_entries = m
      ∧ ((JsonlSpool.empty m).appendAll l).append_counter = l.length % 100
      ∧ ((JsonlSpool.empty m).appendAll l).depth
          ≤ m + ((JsonlSpool.empty m).appendAll l).append_counter
      ∧ ((JsonlSpool.empty m).appendAll l).lines <:+ l := by
    intro l
    induction l using List.reverseRecOn with
    | nil => simp [JsonlSpool.appendAll, JsonlSpool.empty, JsonlSpool.depth]
    | append_singleton l x ih =>
      obtain ⟨hmax, hcnt, hdep, hsuf⟩ := ih
      have hfold : (JsonlSpool.empty m).appendAll (l ++ [x])
          = ((JsonlSpool.empty m).appendAll l).append x := by
        simp [JsonlSpool.appendAll, List.foldl_append]
      set sp := (JsonlSpool.empty m).appendAll l with hsp
      rw [hfold, JsonlSpool.append_eq, hmax]
      have hsufx : sp.lines ++ [x] <:+ l ++ [x] := by
        obtain ⟨u, hu⟩ := hsuf
        exact ⟨u, by rw [← List.append_assoc, hu]⟩
      have hc99 : sp.append_counter ≤ 99 := by omega
      by_cases htrig : sp.append_counter + 1 ≥ 100
      · rw [if_pos htrig]
        refine ⟨by rw [JsonlSpool.trim_max], ?_, ?_, ?_⟩
        · rw [JsonlSpool.trim_counter]
          simp only [List.length_append, List.length_cons, List.length_nil]
          omega
        · rw [JsonlSpool.trim_counter]
          have h : (JsonlSpool.trim ⟨sp.lines ++ [x], 0, m⟩).lines.length ≤ m :=
            JsonlSpool.trim_le _ hm
          simp only [JsonlSpool.depth]
          omega
        · exact (JsonlSpool.trim_suffix _).trans hsufx
      · rw [if_neg htrig]
        refine ⟨rfl, ?_, ?_, hsufx⟩
        · simp only [List.length_append, List.length_cons, List.length_nil]
          omega
        · simp only [JsonlSpool.depth, List.length_append, List.length_cons,
            List.length_nil] at *
          omega
  obtain ⟨hmax, hcnt, hdep, hsuf⟩ := key ls
  refine ⟨hcnt, hdep, hsuf, by omega, fun h0 => by omega⟩

/-- C2, witness: after 100 appends on a spool with `max_entries = 1` the
modulo-100 bound of the amended claim holds (the 100th append triggers the
trim, which keeps the newest line). -/
theorem c2_spool_depth_bounded_witness :
    ((JsonlSpool.empty 1).appendAll (List.replicate 100 ['a'])).depth ≤ 1 :=
  (c2_spool_depth_bounded 1 (by decide) (List.replicate 100 ['a'])).2.2.2.2
    (by decide)

set_option maxRecDepth 4000 in
example : ((JsonlSpool.empty 1).appendAll (List.replicate 100 ['a'])).depth = 1 := by
  decide

set_option maxRecDepth 4000 in
example : ((JsonlSpool.empty 0).appendAll (List.replicate 100 ['a'])).depth = 100 := by
  decide

/-! ## Records store persistence (`mqtt_gps_map_server_latest.py`,
`DriverRecordsStore.persist`) -/

/-- File-system micro-operations relevant to persistence: a truncating write
(`Path.write_text`: open for writing truncates, then the content is written
sequentially) and a rename (`Path.replace`). -/
inductive FsOp where
  | truncWrite (path : List Char) (content : List Char)
  | rename (src dst : List Char)
deriving DecidableEq

/-- `DriverRecordsStore.persist`: `self.path.write_text(payload)` — a single
direct truncating write to the records path.  No temporary file, no rename. -/
def persistTrace (path payload : List Char) : List FsOp :=
  [FsOp.truncWrite path payload]

/-- `write_json_atomic` (ssm_logger.py), the atomic-write pattern the repo
uses for the state/heartbeat file: write to the sibling `.tmp` file, then
rename it into place. -/
def writeJsonAtomicTrace (path payload : List Char) : List FsOp :=
  [FsOp.truncWrite (path ++ ['.', 't', 'm', 'p']) payload,
   FsOp.rename (path ++ ['.', 't', 'm', 'p']) path]

/-- Observable contents of the records file over an interrupted
`persist`.  The `truncWrite` of `persistTrace` targets the records path
itself, so besides the prior content `old` the file can be seen as any
prefix of the new serialization (`List.inits new` — the empty file right
after the truncation, each partially written prefix, and finally `new`). -/
def persistRecordsStates (old new : List Char) : List (List Char) :=
  old :: new.inits

/-- Modelled from the spec: with the sibling-temp-file-and-rename discipline
(`Atomic write: serialize to a sibling temp file and rename into place`) the
`truncWrite` targets only the `.tmp` path and the rename is atomic, so the
records path only ever shows the complete old or the complete new document. -/
def atomicPersistRecordsStates (old new : List Char) : List (List Char) :=
  [old, new]

/-- C3: the claim is right and the code wrong.  `DriverRecordsStore.persist`
is a single direct `write_text` on the records path — its trace is one
truncating write and contains no rename, unlike the repo's own
`write_json_atomic` — and during the persist of document `B` over document
`A` the records file observably holds the empty document, which is neither
the complete old nor the complete new document. -/
theorem c3_persist_not_atomic :
    persistTrace ['r'] ['B'] = [FsOp.truncWrite ['r'] ['B']] ∧
    writeJsonAtomicTrace ['r'] ['B']
      = [FsOp.truncWrite ['r', '.', 't', 'm', 'p'] ['B'],
         FsOp.rename ['r', '.', 't', 'm', 'p'] ['r']] ∧
    [] ∈ persistRecordsStates ['A'] ['B'] ∧
    ([] : List Char) ≠ ['A'] ∧ ([] : List Char) ≠ ['B'] ∧
    atomicPersistRecordsStates ['A'] ['B'] = [['A'], ['B']] := by
  decide

/-! ## RomRaider expression sandbox (`ssm_logger.py`, `normalize_expr`,
`compile_expr`) and parameter decoding (`decode_raw_value`,
`decode_rr_params`) -/

/-- Whitespace for Python's `str.strip()` (the code points occurring in the
definition files). -/
def isPySpace (c : Char) : Bool :=
  c == ' ' || c == '\t' || c == '\n' || c == '\r'

/-- `expr.strip()`. -/
def pyStrip (s : List Char) : List Char :=
  ((s.dropWhile isPySpace).reverse.dropWhile isPySpace).reverse

/-- Worker for `str.replace`: leftmost non-overlapping replacement.  The fuel
is the string length (each step consumes at least one character). -/
def replaceGo (pat rep : List Char) : Nat → List Char → List Char
  | _, [] => []
  | 0, s => s
  | fuel + 1, c :: rest =>
    if pat.isPrefixOf (c :: rest) then
      rep ++ replaceGo pat rep fuel ((c :: rest).drop pat.length)
    else
      c :: replaceGo pat rep fuel rest

/-- Python `s.replace(pat, rep)` for a non-empty pattern. -/
def replaceAll (pat rep s : List Char) : List Char :=
  if pat = [] then s else replaceGo pat rep s.length s

/-- Negative lookbehind of the `!` rewrite: `(?<![=!<>])`.  The previous
*original* character must not be `=`, `!`, `<` or `>` (no previous character
qualifies). -/
def bangPrevOk : Option Char → Bool
  | some p => !(p == '=' || p == '!' || p == '<' || p == '>')
  | none => true

/-- Negative lookahead of the `!` rewrite: `(?!=)`. -/
def bangNextOk : List Char → Bool
  | r :: _ => r != '='
  | [] => true

/-- `re.sub(r"(?<![=!<>])!(?!=)", " not ", out)`: replace each qualifying
unary `!` with ` not `, scanning left to right over the original string. -/
def bangReplace : Option Char → List Char → List Char
  | _, [] => []
  | prev, c :: rest =>
    if c == '!' && bangPrevOk prev && bangNextOk rest then
      [' ', 'n', 'o', 't', ' '] ++ bangReplace (some c) rest
    else
      c :: bangReplace (some c) rest

/-- `normalize_expr`: strip; empty and ternary (`?`) expressions collapse to
the empty string; rewrite `[value]`, `GetLogParam`, `&&`, `||` and unary
`!`. -/
def normalize_expr (expr : List Char) : List Char :=
  let out := pyStrip expr
  if out = [] then []
  else if '?' ∈ out then []
  else
    let out1 := replaceAll ['[', 'v', 'a', 'l', 'u', 'e', ']'] ['v', 'a', 'l', 'u', 'e'] out
    let out2 := replaceAll "GetLogParam".data "getlogparam".data out1
    let out3 := replaceAll ['&', '&'] [' ', 'a', 'n', 'd', ' '] out2
    let out4 := replaceAll ['|', '|'] [' ', 'o', 'r', ' '] out3
    bangReplace none out4

example : normalize_expr "x>1 ? 5 : 2".data = [] := by decide
example : normalize_expr " value*2 ".data = "value*2".data := by decide
example : normalize_expr "!x&&y".data = " not x and y".data := by decide
example : normalize_expr "a!=b".data = "a!=b".data := by decide
example : normalize_expr "GetLogParam(x)||y".data = "getlogparam(x) or y".data := by decide
example : normalize_expr "[value]*2".data = "value*2".data := by decide
example : normalize_expr "!!x".data = " not !x".data := by decide

/-- Binary operator nodes of the Python `ast` module; `ALLOWED_AST_NODES`
admits only the first seven. -/
inductive BinOpKind where
  | add | sub | mult | div | floordiv | mod | pow
  | bitor | bitxor | bitand | lshift | rshift | matmult
deriving DecidableEq

/-- Unary operator nodes; `Invert` (`~`) is not in `ALLOWED_AST_NODES`. -/
inductive UnaryOpKind where
  | usub | uadd | notOp | invert
deriving DecidableEq

/-- Boolean operator nodes; both are allowed. -/
inductive BoolOpKind where
  | andOp | orOp
deriving DecidableEq

/-- Comparison operator nodes; `Is`/`IsNot`/`In`/`NotIn` are not in
`ALLOWED_AST_NODES`. -/
inductive CmpOpKind where
  | eq | notEq | lt | ltE | gt | gtE | isOp | isNotOp | inOp | notInOp
deriving DecidableEq

/-- Python expression trees as produced by `ast.parse(..., mode="eval")`,
covering the node shapes `compile_expr` can meet: the allowed ones plus
representative disallowed ones (attribute access, subscripts, lambdas,
conditional expressions). -/
inductive PyAst where
  | name (id : String)
  | const (v : ℚ)
  | binop (op : BinOpKind) (l r : PyAst)
  | unaryop (op : UnaryOpKind) (e : PyAst)
  | boolop (op : BoolOpKind) (vs : List PyAst)
  | compare (l : PyAst) (ops : List CmpOpKind) (rs : List PyAst)
  | call (f : PyAst) (args : List PyAst)
  | attribute (v : PyAst) (attr : String)
  | subscript (v : PyAst) (idx : PyAst)
  | lambdaE (body : PyAst)
  | ifexp (test body orelse : PyAst)

mutual

/-- `ast.walk`: every node of the tree (traversal order is irrelevant to the
`all`-quantified sandbox check).  Operator objects, which `ast.walk` also
yields and the `isinstance` check inspects, are folded into `nodeOk` via the
`allowed*Op` predicates on the carrying node. -/
def PyAst.walk : PyAst → List PyAst
  | .name i => [.name i]
  | .const v => [.const v]
  | .binop op l r => .binop op l r :: (l.walk ++ r.walk)
  | .unaryop op e => .unaryop op e :: e.walk
  | .boolop op vs => .boolop op vs :: PyAst.walkList vs
  | .compare l ops rs => .compare l ops rs :: (l.walk ++ PyAst.walkList rs)
  | .call f args => .call f args :: (f.walk ++ PyAst.walkList args)
  | .attribute v a => .attribute v a :: v.walk
  | .subscript v i => .subscript v i :: (v.walk ++ i.walk)
  | .lambdaE b => .lambdaE b :: b.walk
  | .ifexp a b c => .ifexp a b c :: (a.walk ++ b.walk ++ c.walk)

/-- `ast.walk` over a child list. -/
def PyAst.walkList : List PyAst → List PyAst
  | [] => []
  | t :: ts => t.walk ++ PyAst.walkList ts

end

/-- `ALLOWED_EXPR_NAMES = {value, abs, min, max, round, pow, getlogparam}`. -/
def ALLOWED_EXPR_NAMES : List String :=
  ["value", "abs", "min", "max", "round", "pow", "getlogparam"]

/-- Membership of a `BinOp`'s operator in `ALLOWED_AST_NODES`. -/
def allowedBinOp : BinOpKind → Bool
  | .add | .sub | .mult | .div | .floordiv | .mod | .pow => true
  | _ => false

/-- Membership of a `UnaryOp`'s operator in `ALLOWED_AST_NODES`. -/
def allowedUnaryOp : UnaryOpKind → Bool
  | .usub | .uadd | .notOp => true
  | .invert => false

/-- Membership of a `Compare`'s operator in `ALLOWED_AST_NODES`. -/
def allowedCmpOp : CmpOpKind → Bool
  | .eq | .notEq | .lt | .ltE | .gt | .gtE => true
  | _ => false

/-- The per-node test of `compile_expr`'s `ast.walk` loop: the node (with its
operators) must be an allowed `isinstance`, a `Name` must be on the
allow-list, and a `Call`'s callee must be an allow-listed `Name`. -/
def nodeOk : PyAst → Bool
  | .name id => decide (id ∈ ALLOWED_EXPR_NAMES)
  | .const _ => true
  | .binop op _ _ => allowedBinOp op
  | .unaryop op _ => allowedUnaryOp op
  | .boolop _ _ => true
  | .compare _ ops _ => ops.all allowedCmpOp
  | .call f _ =>
    match f with
    | .name id => decide (id ∈ ALLOWED_EXPR_NAMES)
    | _ => false
  | .attribute _ _ => false
  | .subscript _ _ => false
  | .lambdaE _ => false
  | .ifexp _ _ _ => false

/-- The sandbox walk of `compile_expr`: every walked node must pass. -/
def sandboxOk (t : PyAst) : Bool := t.walk.all nodeOk

/-- `compile_expr` returns an evaluator iff the normalized source is
non-empty, parses (`parsed` stands for the `ast.parse` result on the
normalized text; parse failure is `none`) and passes the sandbox walk. -/
def compile_expr_accepts (expr : List Char) (parsed : Option PyAst) : Bool :=
  if normalize_expr expr = [] then false
  else
    match parsed with
    | none => false
    | some t => sandboxOk t

example : sandboxOk (.binop .mult (.name "value") (.const (3/4))) = true := by decide
example : sandboxOk (.binop .mult (.name "x") (.const 2)) = false := by decide
example : sandboxOk (.call (.name "getlogparam") [.const 1]) = true := by decide
example : sandboxOk (.attribute (.name "value") "real") = false := by decide
example : sandboxOk (.call (.attribute (.name "value") "bit_length") []) = false := by decide

/-- A RomRaider parameter as built by the catalog loader.  The `evaluator`
models the compiled sandboxed expression, `none` when `compile_expr` rejected
it; an `Except.error` models an exception escaping the evaluator call. -/
structure RRParam where
  name : String
  topic : String
  addr : Nat
  size : Nat
  storagetype : List Char
  kind : String
  bit : Nat
  decimals : Int
  unit : String
  expr : List Char
  evaluator : Option (ℚ → List (String × ℚ) → Except Unit ℚ)

/-- `decode_raw_value`: big-endian `int.from_bytes`, two's complement signed
iff the storage type starts with `int`. -/
def decode_raw_value (raw_bytes : List Nat) (storagetype : List Char) : Int :=
  let u : Nat := raw_bytes.foldl (fun acc b => acc * 256 + b) 0
  if ['i', 'n', 't'].isPrefixOf storagetype && decide (2 ^ (8 * raw_bytes.length - 1) ≤ u) then
    (u : Int) - 2 ^ (8 * raw_bytes.length)
  else
    (u : Int)

example : decode_raw_value [0xC8] "uint8".data = 200 := by decide
example : decode_raw_value [0xC8] "int8".data = -56 := by decide
example : decode_raw_value [0x01, 0x00] "uint16".data = 256 := by decide
example : decode_raw_value [0xFF, 0xFF] "int16".data = -1 := by decide

/-- Python's `round` to an integer: nearest, ties to even. -/
def pyRound (x : ℚ) : Int :=
  let f := ⌊x⌋
  let r := x - f
  if r < 1 / 2 then f
  else if 1 / 2 < r then f + 1
  else if Even f then f else f + 1

/-- Python's `round(x, d)` for `d ≥ 0` digits. -/
def roundTo (x : ℚ) (d : Nat) : ℚ := (pyRound (x * 10 ^ d) : ℚ) / 10 ^ d

example : roundTo (118 : ℚ) 1 = 118 := by
  norm_num [roundTo, pyRound]
example : roundTo (25 / 10 : ℚ) 0 = 2 := by
  norm_num [roundTo, pyRound]
example : roundTo (35 / 10 : ℚ) 0 = 4 := by
  norm_num [roundTo, pyRound]
  exact ⟨1, by norm_num⟩

/-- The three accumulators of `decode_rr_params`.  The Python dicts are
modelled as association lists in insertion order; a dict entry's final value
is its last binding. -/
structure DecodeAcc where
  metrics : List (String × ℚ)
  units : List (String × String)
  resolved : List (String × ℚ)

/-- The `raw_value` computed for a parameter: big-endian decode, replaced by
the single-bit extraction on the bool fast path (`kind == "bool"`, size 1,
`bit ∈ 1..8`, expression empty or `value` after normalization). -/
def rrRawValue (bytes0 : List Nat) (p : RRParam) : ℚ :=
  let raw : ℚ := (decode_raw_value bytes0 p.storagetype : ℚ)
  if p.kind = "bool" ∧ p.size = 1 ∧ 1 ≤ p.bit ∧ p.bit ≤ 8
      ∧ (normalize_expr p.expr = [] ∨ normalize_expr p.expr = "value".data) then
    (((bytes0.headD 0) >>> (p.bit - 1)) &&& 1 : Nat)
  else raw

/-- `[data_by_addr.get(p.addr + i) for i in range(p.size)]`, `none` when any
byte is missing (the parameter is skipped). -/
def rrParamBytes (data : Nat → Option Nat) (p : RRParam) : Option (List Nat) :=
  (List.range p.size).mapM (fun i => data (p.addr + i))

/-- The body of `decode_rr_params`' loop for one parameter: skip on missing
bytes; apply the evaluator when present, falling back to the raw value when
it raises; round to `max(0, decimals)` digits; record metric, unit and
resolved value. -/
def decodeStep (data : Nat → Option Nat) (acc : DecodeAcc) (p : RRParam) : DecodeAcc :=
  match rrParamBytes data p with
  | none => acc
  | some bytes0 =>
    let raw_value := rrRawValue bytes0 p
    let value :=
      match p.evaluator with
      | none => raw_value
      | some f =>
        match f raw_value acc.resolved with
        | .ok v => v
        | .error _ => raw_value
    let rounded := roundTo value (max 0 p.decimals).toNat
    { metrics := acc.metrics ++ [(p.topic, rounded)]
      units := acc.units ++ [(p.topic, p.unit)]
      resolved := acc.resolved ++ [(p.name, rounded)] }

/-- `decode_rr_params`: fold the per-parameter step over the catalog order. -/
def decode_rr_params (data : Nat → Option Nat) (params : List RRParam) : DecodeAcc :=
  params.foldl (decodeStep data) ⟨[], [], []⟩

/-- Any expression containing `?` normalizes to the empty string, so
`compile_expr` rejects it. -/
theorem compile_expr_rejects_qmark (expr : List Char) (parsed : Option PyAst)
    (hq : '?' ∈ expr) : compile_expr_accepts expr parsed = false := by
  have hmem : ∀ (l : List Char), '?' ∈ l → ¬isPySpace '?' →
      '?' ∈ l.dropWhile isPySpace := by
    intro l hl _
    induction l with
    | nil => exact absurd hl (List.not_mem_nil _)
    | cons a as ih =>
      rw [List.dropWhile_cons]
      by_cases ha : isPySpace a
      · rw [if_pos ha]
        rcases List.mem_cons.mp hl with h | h
        · exact absurd (h ▸ ha) (by decide)
        · exact ih h
      · rw [if_neg ha]
        exact hl
  have hstrip : '?' ∈ pyStrip expr := by
    unfold pyStrip
    rw [List.mem_reverse]
    apply hmem
    · rw [List.mem_reverse]
      exact hmem _ hq (by decide)
    · decide
  unfold compile_expr_accepts
  rw [if_pos]
  unfold normalize_expr
  simp only
  by_cases h0 : pyStrip expr = []
  · rw [if_pos h0]
  · rw [if_neg h0, if_pos hstrip]

/-- C4: `compile_expr` rejects every expression containing `?` and every
expression whose parse tree mentions an identifier outside the allow-list
`{value, abs, min, max, round, pow, getlogparam}`; and for every parameter
whose expression was rejected (no evaluator) or whose evaluation raises,
`decode_rr_params` does not raise and records the parameter's metric as its
raw scaled value rounded to the parameter's decimals. -/
theorem c4_expr_sandbox_and_raw_fallback :
    (∀ (expr : List Char) (parsed : Option PyAst), '?' ∈ expr →
      compile_expr_accepts expr parsed = false)
    ∧ (∀ (expr : List Char) (t : PyAst) (id : String), PyAst.name id ∈ t.walk →
      id ∉ ALLOWED_EXPR_NAMES → compile_expr_accepts expr (some t) = false)
    ∧ (∀ (data : Nat → Option Nat) (ps : List RRParam) (p : RRParam)
        (bytes0 : List Nat), rrParamBytes data p = some bytes0 →
      (p.evaluator = none
        ∨ ∃ f, p.evaluator = some f
            ∧ f (rrRawValue bytes0 p) (decode_rr_params data ps).resolved
                = .error ()) →
      (decode_rr_params data (ps ++ [p])).metrics
        = (decode_rr_params data ps).metrics
          ++ [(p.topic, roundTo (rrRawValue bytes0 p) (max 0 p.decimals).toNat)]) := by
  refine ⟨fun expr parsed hq => compile_expr_rejects_qmark expr parsed hq, ?_, ?_⟩
  · intro expr t id hmem hid
    unfold compile_expr_accepts
    by_cases hn : normalize_expr expr = []
    · rw [if_pos hn]
    · rw [if_neg hn]
      show sandboxOk t = false
      cases h : sandboxOk t with
      | false => rfl
      | true =>
        exfalso
        have hall := List.all_eq_true.mp h (PyAst.name id) hmem
        simp only [nodeOk, decide_eq_true_eq] at hall
        exact hid hall
  · intro data ps p bytes0 hbytes hev
    have hfold : decode_rr_params data (ps ++ [p])
        = decodeStep data (decode_rr_params data ps) p := by
      unfold decode_rr_params
      rw [List.foldl_append]
      rfl
    rw [hfold]
    unfold decodeStep
    rw [hbytes]
    rcases hev with hnone | ⟨f, hf, herr⟩
    · rw [hnone]
    · simp only [hf, herr]

/-- Concrete parameter for the C4 witness: `uint8` at address 0, one decimal,
rejected expression (no evaluator). -/
def c4FallbackParam : RRParam :=
  { name := "P", topic := "p", addr := 0, size := 1,
    storagetype := "uint8".data, kind := "numeric", bit := 0, decimals := 1,
    unit := "u", expr := [], evaluator := none }

/-- C4, witness: the three parts applied at concrete inputs — a ternary
expression, an out-of-allow-list identifier, and a parameter without an
evaluator decoding byte `0xC8`. -/
theorem c4_expr_sandbox_and_raw_fallback_witness :
    compile_expr_accepts "value>1 ? 1 : 0".data (some (PyAst.name "value")) = false
    ∧ compile_expr_accepts "foo".data (some (PyAst.name "foo")) = false
    ∧ (decode_rr_params (fun _ => some 0xC8) ([] ++ [c4FallbackParam])).metrics
        = (decode_rr_params (fun _ => some 0xC8) []).metrics
          ++ [(c4FallbackParam.topic,
              roundTo (rrRawValue [0xC8] c4FallbackParam)
                (max 0 c4FallbackParam.decimals).toNat)] :=
  ⟨c4_expr_sandbox_and_raw_fallback.1 _ _ (by decide),
   c4_expr_sandbox_and_raw_fallback.2.1 _ (PyAst.name "foo") "foo"
     (by simp [PyAst.walk]) (by decide),
   c4_expr_sandbox_and_raw_fallback.2.2 _ [] c4FallbackParam [0xC8]
     (by decide) (Or.inl rfl)⟩

/-! ## Spool flushing (`ssm_logger.py`, `flush_spool`, `JsonlSpool.peek_lines`,
`JsonlSpool.drop_first_lines`) -/

/-- `JsonlSpool.peek_lines`: the first `max_lines` stripped non-empty lines,
without removing them. -/
def JsonlSpool.peek_lines (sp : JsonlSpool) (max_lines : Nat) : List (List Char) :=
  if max_lines = 0 then []
  else ((sp.lines.map pyStrip).filter (· ≠ [])).take max_lines

/-- `JsonlSpool.drop_first_lines`: rewrite the file minus the head `count`
raw lines (deleting it when `count` covers everything — `List.drop` covers
both branches). -/
def JsonlSpool.drop_first_lines (sp : JsonlSpool) (count : Nat) : JsonlSpool :=
  if count = 0 then sp
  else { sp with lines := sp.lines.drop count }

/-- Outcome of one `flush_spool` call: the updated spool, the count of lines
handled (`sent_lines`), the payloads republished in order, and whether the
final `sent_lines < len(lines)` check raised `RuntimeError`. -/
structure FlushResult (α : Type) where
  spool : JsonlSpool
  sent : Nat
  published : List α
  failed : Bool

/-- The `for line in lines` loop of `flush_spool`: a malformed line
(`decode = none`, `json.JSONDecodeError`) counts as sent and is skipped; a
publishable line counts as sent; the first publish failure breaks out.
`decode` stands for `json.loads`, `pub` for `publish_payload_and_metrics`
(returning `false` when it raises). -/
def flushScan {α : Type} (decode : List Char → Option α) (pub : α → Bool) :
    List (List Char) → Nat × List α
  | [] => (0, [])
  | l :: ls =>
    match decode l with
    | none =>
      let r := flushScan decode pub ls
      (r.1 + 1, r.2)
    | some payload =>
      if pub payload then
        let r := flushScan decode pub ls
        (r.1 + 1, payload :: r.2)
      else (0, [])

/-- `flush_spool`: peek up to `flush_per_loop` head lines, run the publish
loop, drop exactly the handled count from the head, and flag the abort when
not all peeked lines were handled. -/
def flush_spool {α : Type} (sp : JsonlSpool) (flush_per_loop : Nat)
    (decode : List Char → Option α) (pub : α → Bool) : FlushResult α :=
  let lines := sp.peek_lines flush_per_loop
  let r := flushScan decode pub lines
  let sp1 := if 0 < r.1 then sp.drop_first_lines r.1 else sp
  { spool := sp1, sent := r.1, published := r.2,
    failed := decide (r.1 < lines.length) }

/-- Every conclusion of the flush-loop scan: the handled count is bounded by
the input, the published payloads are exactly the decodable handled lines in
order, every handled line was malformed or published, and on abort the line
at the handled index decodes but fails to publish. -/
theorem flushScan_spec {α : Type} (decode : List Char → Option α)
    (pub : α → Bool) (ls : List (List Char)) :
    (flushScan decode pub ls).1 ≤ ls.length
    ∧ (flushScan decode pub ls).2
        = (ls.take (flushScan decode pub ls).1).filterMap decode
    ∧ (∀ l ∈ ls.take (flushScan decode pub ls).1,
        decode l = none ∨ ∃ p, decode l = some p ∧ pub p = true)
    ∧ ((flushScan decode pub ls).1 < ls.length →
        ∃ p, decode (ls.getD (flushScan decode pub ls).1 []) = some p
          ∧ pub p = false) := by
  induction ls with
  | nil => simp [flushScan]
  | cons l ls ih =>
    obtain ⟨ih1, ih2, ih3, ih4⟩ := ih
    cases hdec : decode l with
    | none =>
      simp only [flushScan, hdec]
      refine ⟨by simpa using ih1, ?_, ?_, ?_⟩
      · rw [List.take_succ_cons, List.filterMap_cons_none hdec]
        exact ih2
      · intro x hx
        rw [List.take_succ_cons] at hx
        rcases List.mem_cons.mp hx with h | h
        · exact Or.inl (h ▸ hdec)
        · exact ih3 x h
      · intro hlt
        simp only [List.length_cons] at hlt
        have := ih4 (by omega)
        simpa using this
    | some payload =>
      cases hpub : pub payload with
      | true =>
        simp only [flushScan, hdec, hpub, if_pos]
        refine ⟨by simpa using ih1, ?_, ?_, ?_⟩
        · rw [List.take_succ_cons, List.filterMap_cons_some hdec]
          rw [ih2]
        · intro x hx
          rw [List.take_succ_cons] at hx
          rcases List.mem_cons.mp hx with h | h
          · exact Or.inr ⟨payload, h ▸ hdec, hpub⟩
          · exact ih3 x h
        · intro hlt
          simp only [List.length_cons] at hlt
          have := ih4 (by omega)
          simpa using this
      | false =>
        have hr : flushScan decode pub (l :: ls) = (0, []) := by
          simp [flushScan, hdec, hpub]
        rw [hr]
        exact ⟨by simp, by simp, by simp,
          fun _ => ⟨payload, by simpa using hdec, hpub⟩⟩

/-- On a spool whose lines are non-empty and whitespace-free — every line
`append` ever writes is a `json.dumps` output, hence such — `peek_lines n`
is exactly the head `n` lines. -/
theorem peek_lines_clean (sp : JsonlSpool) (n : Nat)
    (hclean : ∀ l ∈ sp.lines, pyStrip l = l ∧ l ≠ []) :
    sp.peek_lines n = sp.lines.take n := by
  unfold JsonlSpool.peek_lines
  have hmap : sp.lines.map pyStrip = sp.lines := by
    rw [List.map_congr_left (fun a ha => (hclean a ha).1)]
    exact List.map_id _
  have hfil : sp.lines.filter (· ≠ []) = sp.lines := by
    rw [List.filter_eq_self]
    intro a ha
    simpa using (hclean a ha).2
  rw [hmap, hfil]
  by_cases h0 : n = 0
  · rw [if_pos h0, h0, List.take_zero]
  · rw [if_neg h0]

/-- C5: `flush_spool` republishes up to `flush_per_loop` head lines in
order; malformed lines are counted as sent and dropped; on the first publish
failure flushing aborts; exactly the successfully handled count is dropped
from the head of the spool and the remaining lines stay at the head in their
original order. -/
theorem c5_flush_spool_head_semantics {α : Type} (sp : JsonlSpool) (n : Nat)
    (decode : List Char → Option α) (pub : α → Bool)
    (hclean : ∀ l ∈ sp.lines, pyStrip l = l ∧ l ≠ []) :
    (flush_spool sp n decode pub).spool.lines
        = sp.lines.drop (flush_spool sp n decode pub).sent
    ∧ (flush_spool sp n decode pub).sent ≤ min n sp.depth
    ∧ (flush_spool sp n decode pub).published
        = (sp.lines.take (flush_spool sp n decode pub).sent).filterMap decode
    ∧ (∀ l ∈ sp.lines.take (flush_spool sp n decode pub).sent,
        decode l = none ∨ ∃ p, decode l = some p ∧ pub p = true)
    ∧ ((flush_spool sp n decode pub).failed = true
        ↔ (flush_spool sp n decode pub).sent < (sp.lines.take n).length)
    ∧ ((flush_spool sp n decode pub).failed = true →
        ∃ p, decode ((sp.lines.take n).getD (flush_spool sp n decode pub).sent [])
            = some p ∧ pub p = false) := by
  have hpeek := peek_lines_clean sp n hclean
  obtain ⟨hs1, hs2, hs3, hs4⟩ := flushScan_spec decode pub (sp.lines.take n)
  have hsent : (flush_spool sp n decode pub).sent
      = (flushScan decode pub (sp.lines.take n)).1 := by
    unfold flush_spool
    rw [hpeek]
  have hpub2 : (flush_spool sp n decode pub).published
      = (flushScan decode pub (sp.lines.take n)).2 := by
    unfold flush_spool
    rw [hpeek]
  have hfail : (flush_spool sp n decode pub).failed
      = decide ((flushScan decode pub (sp.lines.take n)).1
          < (sp.lines.take n).length) := by
    unfold flush_spool
    rw [hpeek]
  have htakemem : sp.lines.take ((flushScan decode pub (sp.lines.take n)).1)
      = (sp.lines.take n).take (flushScan decode pub (sp.lines.take n)).1 := by
    rw [List.take_take]
    congr 1
    have := hs1
    rw [List.length_take] at this
    omega
  have hspool : (flush_spool sp n decode pub).spool.lines
      = sp.lines.drop (flushScan decode pub (sp.lines.take n)).1 := by
    unfold flush_spool
    rw [hpeek]
    simp only
    by_cases h0 : 0 < (flushScan decode pub (sp.lines.take n)).1
    · rw [if_pos h0]
      unfold JsonlSpool.drop_first_lines
      rw [if_neg (by omega)]
    · rw [if_neg h0]
      have : (flushScan decode pub (sp.lines.take n)).1 = 0 := by omega
      rw [this, List.drop_zero]
  refine ⟨by rw [hspool, hsent], ?_, ?_, ?_, ?_, ?_⟩
  · rw [hsent]
    have := hs1
    rw [List.length_take] at this
    exact this
  · rw [hpub2, hsent, htakemem]
    exact hs2
  · rw [hsent, htakemem]
    exact hs3
  · rw [hfail, hsent]
    simp
  · rw [hfail, hsent]
    intro h
    exact hs4 (by simpa using h)

/-- Decoder for the C5 witness: the line `x` is malformed JSON. -/
def c5DecodeW (l : List Char) : Option (List Char) :=
  if l = "x".data then none else some l

/-- Publisher for the C5 witness: publishing the payload `b` fails. -/
def c5PubW (p : List Char) : Bool := p != "b".data

/-- C5, witness: flushing a three-line spool `a, x, b` where `x` is malformed
and `b` fails to publish handles two lines, republishes only `a`, drops the
two handled head lines, leaves `b` at the head, and flags the abort. -/
theorem c5_flush_spool_head_semantics_witness :
    (flush_spool ⟨["a".data, "x".data, "b".data], 0, 10⟩ 5 c5DecodeW c5PubW).spool.lines
      = (["a".data, "x".data, "b".data] : List (List Char)).drop
          (flush_spool ⟨["a".data, "x".data, "b".data], 0, 10⟩ 5 c5DecodeW c5PubW).sent
    ∧ (flush_spool ⟨["a".data, "x".data, "b".data], 0, 10⟩ 5 c5DecodeW c5PubW).sent = 2
    ∧ (flush_spool ⟨["a".data, "x".data, "b".data], 0, 10⟩ 5 c5DecodeW c5PubW).published
      = ["a".data]
    ∧ (flush_spool ⟨["a".data, "x".data, "b".data], 0, 10⟩ 5 c5DecodeW c5PubW).failed
      = true :=
  ⟨(c5_flush_spool_head_semantics ⟨["a".data, "x".data, "b".data], 0, 10⟩ 5
      c5DecodeW c5PubW (by decide)).1,
   by decide, by decide, by decide⟩

/-! ## Lap timing state machine (`mqtt_gps_map_server_latest.py`,
`LapTiming.update`) -/

/-- `MIN_VALID_LAP_SEC = 20.0`. -/
def MIN_VALID_LAP_SEC : ℚ := 20

/-- `MAX_TRACK_ERROR_M = 120.0`. -/
def MAX_TRACK_ERROR_M : ℚ := 120

/-- The three-slot split lists (`[None, None, None]` initialised). -/
abbrev Splits3 := Option ℚ × Option ℚ × Option ℚ

/-- Per-driver `LapTiming` state.  Timestamps, arclengths and durations are
Python floats, modelled as `ℚ`. -/
structure LapTiming where
  lap_len_m : ℚ
  split_dist : ℚ × ℚ × ℚ
  lap_count : Nat
  armed : Bool
  lap_start_ts : ℚ
  lap_progress_m : ℚ
  current_splits : Splits3
  last_splits : Splits3
  best_splits : Splits3
  best_split_segments : Splits3
  last_lap : Option ℚ
  best_lap : Option ℚ
  prev_s : Option ℚ
deriving DecidableEq

/-- `LapTiming.__init__`. -/
def LapTiming.init (lap_len_m : ℚ) : LapTiming :=
  { lap_len_m := lap_len_m
    split_dist := (lap_len_m / 3, (2 * lap_len_m) / 3, lap_len_m)
    lap_count := 0
    armed := false
    lap_start_ts := 0
    lap_progress_m := 0
    current_splits := (none, none, none)
    last_splits := (none, none, none)
    best_splits := (none, none, none)
    best_split_segments := (none, none, none)
    last_lap := none
    best_lap := none
    prev_s := none }

/-- The `completed_lap` dict built on lap rollover. -/
structure CompletedLap where
  lap_number : Nat
  lap_time_sec : ℚ
  splits_sec : Splits3
  completed_at_sec : ℚ
deriving DecidableEq

/-- `LapTiming._split_segments`: cumulative splits to segment times. -/
def split_segments : Splits3 → Splits3
  | (s1, s2, s3) =>
    (s1,
     match s1, s2 with
     | some a, some b => some (b - a)
     | _, _ => none,
     match s2, s3 with
     | some b, some c => some (c - b)
     | _, _ => none)

/-- The `ds` computation of `LapTiming.update`: `ds = s − prev`, wrapped by
`±lap_len_m` when beyond `±lap_len_m·0.5` (`0.5` is exact in binary floating
point, so `ℚ` matches the code). -/
def wrapDs (lap_len_m prev s : ℚ) : ℚ :=
  if s - prev < -(lap_len_m * (1 / 2)) then s - prev + lap_len_m
  else if s - prev > lap_len_m * (1 / 2) then s - prev - lap_len_m
  else s - prev

/-- One slot of the split-capture loop: fill a `none` slot with the elapsed
time once `lap_progress_m` passes its distance. -/
def captureOne (prog elapsed d : ℚ) (c : Option ℚ) : Option ℚ :=
  if c = none ∧ prog ≥ d then some elapsed else c

/-- The `for i in range(3)` split-capture loop. -/
def captureSplits (sd : ℚ × ℚ × ℚ) (prog elapsed : ℚ) (cs : Splits3) : Splits3 :=
  (captureOne prog elapsed sd.1 cs.1,
   captureOne prog elapsed sd.2.1 cs.2.1,
   captureOne prog elapsed sd.2.2 cs.2.2)

/-- `if best is None or v < best: best = v`. -/
def updBest (best : Option ℚ) (v : ℚ) : Option ℚ :=
  match best with
  | none => some v
  | some b => if v < b then some v else some b

/-- Best update guarded on the candidate being present. -/
def updBestOpt (best : Option ℚ) (v : Option ℚ) : Option ℚ :=
  match v with
  | none => best
  | some x => updBest best x

/-- One index of the best-accounting loop: a `none` cumulative split skips
the index entirely (`continue`); otherwise the cumulative best takes the
minimum and the segment best takes the minimum when the segment exists. -/
def updBestPair (bsp bseg : Option ℚ) (split seg : Option ℚ) : Option ℚ × Option ℚ :=
  match split with
  | none => (bsp, bseg)
  | some v => (updBest bsp v, updBestOpt bseg seg)

/-- The `is_valid_lap` best-accounting block of `LapTiming.update`: only a
lap with `lap_time ≥ MIN_VALID_LAP_SEC` touches `best_lap`, `best_splits`
and `best_split_segments`. -/
def bestAfterLap (st : LapTiming) (cs : Splits3) (lap_time : ℚ) :
    Option ℚ × Splits3 × Splits3 :=
  if lap_time ≥ MIN_VALID_LAP_SEC then
    let segs := split_segments cs
    let p1 := updBestPair st.best_splits.1 st.best_split_segments.1 cs.1 segs.1
    let p2 := updBestPair st.best_splits.2.1 st.best_split_segments.2.1 cs.2.1 segs.2.1
    let p3 := updBestPair st.best_splits.2.2 st.best_split_segments.2.2 cs.2.2 segs.2.2
    (updBest st.best_lap lap_time, (p1.1, p2.1, p3.1), (p1.2, p2.2, p3.2))
  else
    (st.best_lap, st.best_splits, st.best_split_segments)

/-- `LapTiming.update`: first fix seeds `prev_s` only; an unarmed state arms
on `ds > 0 ∧ s < 0.12·L`; an armed state advances `lap_progress_m` by
`max(ds, 0)`, captures splits, and on `lap_progress_m ≥ lap_len_m` completes
the lap (bumping `lap_count`, setting `last_*`, updating `best_*` only for
valid laps, re-arming with the wrapped progress).  The Python code assigns
`self.prev_s = s_m` once before branching; here every branch's result record
carries `prev_s := some s_m`, which is the same final state. -/
def LapTiming.update (st : LapTiming) (ts_sec s_m : ℚ) :
    LapTiming × Option CompletedLap :=
  match st.prev_s with
  | none => ({ st with prev_s := some s_m }, none)
  | some prev =>
    let ds := wrapDs st.lap_len_m prev s_m
    if st.armed = false then
      if ds > 0 ∧ s_m < st.lap_len_m * (12 / 100) then
        ({ st with
            prev_s := some s_m
            armed := true
            lap_start_ts := ts_sec
            lap_progress_m := 0
            current_splits := (none, none, none) }, none)
      else ({ st with prev_s := some s_m }, none)
    else
      let prog := st.lap_progress_m + max ds 0
      let elapsed := ts_sec - st.lap_start_ts
      let cs := captureSplits st.split_dist prog elapsed st.current_splits
      if prog ≥ st.lap_len_m then
        let best := bestAfterLap st cs elapsed
        ({ st with
            prev_s := some s_m
            lap_count := st.lap_count + 1
            last_lap := some elapsed
            last_splits := cs
            best_lap := best.1
            best_splits := best.2.1
            best_split_segments := best.2.2
            lap_start_ts := ts_sec
            lap_progress_m := max (prog - st.lap_len_m) 0
            current_splits := (none, none, none) },
         some { lap_number := st.lap_count + 1
                lap_time_sec := elapsed
                splits_sec := cs
                completed_at_sec := ts_sec })
      else
        ({ st with
            prev_s := some s_m
            lap_progress_m := prog
            current_splits := cs }, none)

/-- A completed lap below the 20 s threshold bumps `lap_count` and the
`last_*` fields but leaves every `best_*` field untouched. -/
theorem update_short_lap_fields (st : LapTiming) (ts s : ℚ) (lap : CompletedLap)
    (hlap : (st.update ts s).2 = some lap)
    (hlow : lap.lap_time_sec < MIN_VALID_LAP_SEC) :
    (st.update ts s).1.lap_count = st.lap_count + 1
    ∧ (st.update ts s).1.last_lap = some lap.lap_time_sec
    ∧ (st.update ts s).1.last_splits = lap.splits_sec
    ∧ (st.update ts s).1.best_lap = st.best_lap
    ∧ (st.update ts s).1.best_splits = st.best_splits
    ∧ (st.update ts s).1.best_split_segments = st.best_split_segments := by
  unfold LapTiming.update at hlap ⊢
  rcases hprev : st.prev_s with _ | prev
  · rw [hprev] at hlap
    simp at hlap
  · try rw [hprev] at hlap
    try rw [hprev]
    simp only at hlap ⊢
    split_ifs at hlap ⊢ with h1 h2
    simp only [Option.some.injEq] at hlap
    subst hlap
    have hbest : bestAfterLap st
        (captureSplits st.split_dist
          (st.lap_progress_m + max (wrapDs st.lap_len_m prev s) 0)
          (ts - st.lap_start_ts) st.current_splits)
        (ts - st.lap_start_ts)
        = (st.best_lap, st.best_splits, st.best_split_segments) := by
      unfold bestAfterLap
      rw [if_neg]
      simp only at hlow
      exact fun hge => absurd hlow (not_lt.mpr hge)
    simp [hbest]

/-- Within `update`, a change of any `best_*` field implies a completed lap
with `lap_time ≥ MIN_VALID_LAP_SEC`. -/
theorem update_best_change_needs_valid_lap (st : LapTiming) (ts s : ℚ)
    (hne : (st.update ts s).1.best_lap ≠ st.best_lap
      ∨ (st.update ts s).1.best_splits ≠ st.best_splits
      ∨ (st.update ts s).1.best_split_segments ≠ st.best_split_segments) :
    ∃ lap, (st.update ts s).2 = some lap
      ∧ lap.lap_time_sec ≥ MIN_VALID_LAP_SEC := by
  unfold LapTiming.update at hne ⊢
  rcases hprev : st.prev_s with _ | prev
  · rw [hprev] at hne
    simp at hne
  · try rw [hprev] at hne
    try rw [hprev]
    simp only at hne ⊢
    split_ifs at hne ⊢ with h1 h2 h3
    · simp at hne
    · simp at hne
    · by_cases hvalid : ts - st.lap_start_ts ≥ MIN_VALID_LAP_SEC
      · exact ⟨_, rfl, hvalid⟩
      · exfalso
        have hbest : bestAfterLap st
            (captureSplits st.split_dist
              (st.lap_progress_m + max (wrapDs st.lap_len_m prev s) 0)
              (ts - st.lap_start_ts) st.current_splits)
            (ts - st.lap_start_ts)
            = (st.best_lap, st.best_splits, st.best_split_segments) := by
          unfold bestAfterLap
          rw [if_neg hvalid]
        simp [hbest] at hne
    · simp at hne

/-- C6: a completed lap whose `lap_time` is below `MIN_VALID_LAP_SEC` (20 s)
increments `lap_count` and updates `last_lap`/`last_splits` but leaves
`best_lap`, `best_splits` and `best_split_segments` unchanged; and within
`update` the `best_*` fields change only on completion of a lap with
`lap_time ≥ 20 s`. -/
theorem c6_short_lap_no_best_update :
    (∀ (st : LapTiming) (ts s : ℚ) (lap : CompletedLap),
      (st.update ts s).2 = some lap → lap.lap_time_sec < MIN_VALID_LAP_SEC →
      (st.update ts s).1.lap_count = st.lap_count + 1
      ∧ (st.update ts s).1.last_lap = some lap.lap_time_sec
      ∧ (st.update ts s).1.last_splits = lap.splits_sec
      ∧ (st.update ts s).1.best_lap = st.best_lap
      ∧ (st.update ts s).1.best_splits = st.best_splits
      ∧ (st.update ts s).1.best_split_segments = st.best_split_segments)
    ∧ (∀ (st : LapTiming) (ts s : ℚ),
      ((st.update ts s).1.best_lap ≠ st.best_lap
        ∨ (st.update ts s).1.best_splits ≠ st.best_splits
        ∨ (st.update ts s).1.best_split_segments ≠ st.best_split_segments) →
      ∃ lap, (st.update ts s).2 = some lap
        ∧ lap.lap_time_sec ≥ MIN_VALID_LAP_SEC) :=
  ⟨update_short_lap_fields, update_best_change_needs_valid_lap⟩

/-- A 300 m lap state, armed at 295 m progress with two splits captured,
about to complete a 10 s (invalid) lap. -/
def stShortLap : LapTiming :=
  { lap_len_m := 300
    split_dist := (100, 200, 300)
    lap_count := 0
    armed := true
    lap_start_ts := 0
    lap_progress_m := 295
    current_splits := (some 1, some 2, none)
    last_splits := (none, none, none)
    best_splits := (none, none, none)
    best_split_segments := (none, none, none)
    last_lap := none
    best_lap := none
    prev_s := some 290 }

/-- The concrete short-lap completion driving the C6 witness. -/
theorem stShortLap_completes :
    (stShortLap.update 10 297).2
      = some { lap_number := 1, lap_time_sec := 10,
               splits_sec := (some 1, some 2, some 10), completed_at_sec := 10 } := by
  norm_num [LapTiming.update, stShortLap, wrapDs, captureSplits, captureOne,
    bestAfterLap, MIN_VALID_LAP_SEC]
  exact ⟨by simp, by simp⟩

/-- C6, witness: the 10 s lap of `stShortLap` bumps `lap_count` and `last_*`
yet leaves every `best_*` field `none`. -/
theorem c6_short_lap_no_best_update_witness :
    (stShortLap.update 10 297).1.lap_count = stShortLap.lap_count + 1
    ∧ (stShortLap.update 10 297).1.last_lap
        = some (CompletedLap.lap_time_sec
            { lap_number := 1, lap_time_sec := 10,
              splits_sec := (some 1, some 2, some 10), completed_at_sec := 10 })
    ∧ (stShortLap.update 10 297).1.last_splits
        = CompletedLap.splits_sec
            { lap_number := 1, lap_time_sec := 10,
              splits_sec := (some 1, some 2, some 10), completed_at_sec := 10 }
    ∧ (stShortLap.update 10 297).1.best_lap = stShortLap.best_lap
    ∧ (stShortLap.update 10 297).1.best_splits = stShortLap.best_splits
    ∧ (stShortLap.update 10 297).1.best_split_segments
        = stShortLap.best_split_segments :=
  c6_short_lap_no_best_update.1 stShortLap 10 297 _
    stShortLap_completes (by norm_num [MIN_VALID_LAP_SEC])

/-- The wrap of `ds = s − prev` in `update`: beyond `+L/2` it wraps down by
`L`, beyond `−L/2` it wraps up by `L`, otherwise it is untouched. -/
theorem wrapDs_cases (L prev s : ℚ) (hL : 0 ≤ L) :
    (s - prev > L / 2 → wrapDs L prev s = s - prev - L)
    ∧ (s - prev < -(L / 2) → wrapDs L prev s = s - prev + L)
    ∧ (-(L / 2) ≤ s - prev → s - prev ≤ L / 2 → wrapDs L prev s = s - prev) := by
  unfold wrapDs
  refine ⟨fun h => ?_, fun h => ?_, fun h h2 => ?_⟩
  · rw [if_neg (by linarith), if_pos (by linarith)]
  · rw [if_pos (by linarith)]
  · rw [if_neg (by linarith), if_neg (by linarith)]

/-- An unarmed state arms exactly on `ds > 0 ∧ s < 0.12·L`, and arming sets
`lap_start_ts = ts`, `lap_progress_m = 0` and clears the current splits. -/
theorem update_arming (st : LapTiming) (ts s prev : ℚ)
    (hprev : st.prev_s = some prev) (harm : st.armed = false) :
    ((st.update ts s).1.armed = true
      ↔ (wrapDs st.lap_len_m prev s > 0 ∧ s < st.lap_len_m * (12 / 100)))
    ∧ ((st.update ts s).1.armed = true →
        (st.update ts s).1.lap_start_ts = ts
        ∧ (st.update ts s).1.lap_progress_m = 0
        ∧ (st.update ts s).1.current_splits = (none, none, none)) := by
  unfold LapTiming.update
  rw [hprev]
  simp only
  rw [if_pos harm]
  by_cases hc : wrapDs st.lap_len_m prev s > 0 ∧ s < st.lap_len_m * (12 / 100)
  · rw [if_pos hc]
    exact ⟨⟨fun _ => hc, fun _ => rfl⟩, fun _ => ⟨rfl, rfl, rfl⟩⟩
  · rw [if_neg hc]
    refine ⟨⟨fun ha => absurd (harm ▸ ha) (by simp), fun h => absurd h hc⟩,
      fun ha => absurd (harm ▸ ha) (by simp)⟩

/-- C7: `ds = s − prev_s` is wrapped by `±lap_len_m` whenever `|ds| > L/2`;
an unarmed state arms exactly on an update with wrapped `ds > 0` and
`s < 0.12·L`, arming sets `lap_start_ts = ts`, zeroes the progress and clears
the current splits; and from `prev_s = 0.95·L` an update at `s = 0.05·L`
yields wrapped `ds = +0.10·L` and arms (for any positive track length). -/
theorem c7_wrap_and_arming :
    (∀ (L prev s : ℚ), 0 ≤ L →
      (s - prev > L / 2 → wrapDs L prev s = s - prev - L)
      ∧ (s - prev < -(L / 2) → wrapDs L prev s = s - prev + L)
      ∧ (-(L / 2) ≤ s - prev → s - prev ≤ L / 2 → wrapDs L prev s = s - prev))
    ∧ (∀ (st : LapTiming) (ts s prev : ℚ), st.prev_s = some prev →
      st.armed = false →
      ((st.update ts s).1.armed = true
        ↔ (wrapDs st.lap_len_m prev s > 0 ∧ s < st.lap_len_m * (12 / 100)))
      ∧ ((st.update ts s).1.armed = true →
          (st.update ts s).1.lap_start_ts = ts
          ∧ (st.update ts s).1.lap_progress_m = 0
          ∧ (st.update ts s).1.current_splits = (none, none, none)))
    ∧ (∀ (L : ℚ), 0 < L → ∀ (st : LapTiming) (ts : ℚ), st.lap_len_m = L →
      st.prev_s = some (L * (95 / 100)) → st.armed = false →
      wrapDs L (L * (95 / 100)) (L * (5 / 100)) = L * (10 / 100)
      ∧ (st.update ts (L * (5 / 100))).1.armed = true) := by
  refine ⟨fun L prev s hL => wrapDs_cases L prev s hL,
    fun st ts s prev hprev harm => update_arming st ts s prev hprev harm,
    fun L hL st ts hlen hprev harm => ?_⟩
  have hwrap : wrapDs L (L * (95 / 100)) (L * (5 / 100)) = L * (10 / 100) := by
    unfold wrapDs
    rw [if_pos (by nlinarith)]
    ring
  refine ⟨hwrap, ?_⟩
  have hiff := (update_arming st ts (L * (5 / 100)) (L * (95 / 100)) hprev harm).1
  rw [hiff, hlen, hwrap]
  constructor
  · nlinarith
  · nlinarith

/-- An unarmed 300 m lap state sitting at `0.95·L = 285 m`. -/
def stUnarmed : LapTiming :=
  { LapTiming.init 300 with prev_s := some (300 * (95 / 100)) }

/-- C7, witness: the wrap equations at `L = 300`, and the concrete arming
update from `285 m` to `15 m`. -/
theorem c7_wrap_and_arming_witness :
    ((297 : ℚ) - 290 > 300 / 2 → wrapDs 300 290 297 = 297 - 290 - 300)
    ∧ ((297 : ℚ) - 290 < -(300 / 2) → wrapDs 300 290 297 = 297 - 290 + 300)
    ∧ (-(300 / 2) ≤ (297 : ℚ) - 290 → (297 : ℚ) - 290 ≤ 300 / 2 →
        wrapDs 300 290 297 = 297 - 290)
    ∧ wrapDs 300 (300 * (95 / 100)) (300 * (5 / 100)) = 300 * (10 / 100)
    ∧ (stUnarmed.update 7 (300 * (5 / 100))).1.armed = true := by
  have h3 := c7_wrap_and_arming.2.2 300 (by norm_num) stUnarmed 7 rfl rfl rfl
  have h1 := c7_wrap_and_arming.1 300 290 297 (by norm_num)
  exact ⟨h1.1, h1.2.1, h1.2.2, h3.1, h3.2⟩

/-! ## GPS ingress (`mqtt_gps_map_server_latest.py`, `SharedState.update`,
`DriverRecordsStore`) -/

/-- Python `int()` on a float: truncation toward zero. -/
def pyInt (x : ℚ) : Int := if 0 ≤ x then ⌊x⌋ else -⌊-x⌋

/-- The GPS MQTT payload fields `SharedState.update` reads (`lat`, `lon`
mandatory, `ts_ns` optional). -/

structure GpsPayload where
  lat : ℚ
  lon : ℚ
  ts_ns : Option Int
deriving DecidableEq

/-- The `row` stored into `latest`: the payload extended with `track_s_m`,
`lap_distance_m`, `track_error_m` and `driver`. -/
structure RowData where
  lat : ℚ
  lon : ℚ
  ts_ns : Option Int
  track_s_m : ℚ
  lap_distance_m : Option ℚ
  track_error_m : ℚ
  driver : String
deriving DecidableEq

/-- A persisted lap row (`lap_entry`): the completed-lap dict plus `driver`
and `session_id`. -/
structure LapRowR where
  lap_number : Nat
  lap_time_sec : ℚ
  splits_sec : Splits3
  completed_at_sec : ℚ
  driver : String
  session_id : Nat
deriving DecidableEq

/-- One session bucket of the records document. -/
structure SessionData where
  laps : List LapRowR
  created_at_sec : ℚ
deriving DecidableEq

/-- One driver's records: current session id and the session map (Python
dicts are modelled as association lists). -/
structure DriverData where
  current_session_id : Nat
  sessions : List (Nat × SessionData)
deriving DecidableEq

/-- The in-memory records document (`self.data["drivers"]`).  The on-disk
persistence of this document is covered by `persistTrace`. -/
structure DriverRecordsStore where
  drivers : List (String × DriverData)
deriving DecidableEq

/-- `DriverRecordsStore._empty_driver`. -/
def emptyDriver (now : ℚ) : DriverData :=
  { current_session_id := 1
    sessions := [(1, { laps := [], created_at_sec := now })] }

/-- `DriverRecordsStore.ensure_driver`: insert an empty driver entry when
missing. -/
def DriverRecordsStore.ensure_driver (rs : DriverRecordsStore) (driver : String)
    (now : ℚ) : DriverRecordsStore :=
  match rs.drivers.lookup driver with
  | some _ => rs
  | none => { drivers := rs.drivers ++ [(driver, emptyDriver now)] }

/-- `DriverRecordsStore.current_session_id` (after `ensure_driver`). -/
def DriverRecordsStore.current_session_id (rs : DriverRecordsStore)
    (driver : String) : Nat :=
  match rs.drivers.lookup driver with
  | some d => d.current_session_id
  | none => 1

/-- `DriverRecordsStore.add_lap`: append the lap to the current session
(creating it if missing).  The `persist()` call it ends with is the direct
write modelled by `persistTrace`. -/
def DriverRecordsStore.add_lap (rs : DriverRecordsStore) (driver : String)
    (lap : LapRowR) (now : ℚ) : DriverRecordsStore :=
  let rs1 := rs.ensure_driver driver now
  { drivers := rs1.drivers.map (fun e =>
      if e.1 = driver then
        let d := e.2
        let sid := d.current_session_id
        let d2 :=
          match d.sessions.lookup sid with
          | some _ =>
            { d with sessions := d.sessions.map (fun se =>
                if se.1 = sid then (se.1, { se.2 with laps := se.2.laps ++ [lap] })
                else se) }
          | none =>
            { d with sessions := d.sessions
                ++ [(sid, { laps := [lap], created_at_sec := now })] }
        (e.1, d2)
      else e) }

/-- Events published by `SharedState.update` (the InfluxDB writes mirror the
same pair of event kinds and are not modelled separately). -/
inductive GpsEvent where
  | splitEv (driver : String) (session_id : Nat) (lap_number : Nat)
      (split_index : Nat) (cumulative : ℚ) (segment : Option ℚ) (ts_ns : Int)
  | lapEv (driver : String) (session_id : Nat) (lap : CompletedLap)
deriving DecidableEq

/-- The `for idx in range(3)` split-event loop: one event per slot that went
from `None` to a value during this update, with its segment time derived from
the post-update `current_splits`. -/
def splitEventsFor (driver : String) (session_id : Nat) (lap_number : Nat)
    (prev now : Splits3) (ts_ns : Int) : List GpsEvent :=
  (match prev.1, now.1 with
   | none, some v =>
     [GpsEvent.splitEv driver session_id lap_number 1 v (some v) ts_ns]
   | _, _ => [])
  ++ (match prev.2.1, now.2.1 with
   | none, some v =>
     [GpsEvent.splitEv driver session_id lap_number 2 v
       (match now.1 with
        | some a => some (v - a)
        | none => none) ts_ns]
   | _, _ => [])
  ++ (match prev.2.2, now.2.2 with
   | none, some v =>
     [GpsEvent.splitEv driver session_id lap_number 3 v
       (match now.2.1 with
        | some a => some (v - a)
        | none => none) ts_ns]
   | _, _ => [])

/-- The fields of `SharedState` a GPS fix can touch.  `timings` is the
per-driver map; the UI snapshot dict (`_timing_snapshot`, a pure function of
the post-update timing state) is not modelled. -/
structure SharedState where
  last_seg_idx : Nat
  seq : Nat
  latest : Option RowData
  history : List (ℚ × ℚ)
  history_size : Nat
  active_driver : String
  timings : String → LapTiming
  records : DriverRecordsStore

/-- `deque(maxlen=history_size).append`: drop from the left on overflow. -/
def pushHistory (h : List (ℚ × ℚ)) (size : Nat) (x : ℚ × ℚ) : List (ℚ × ℚ) :=
  let h2 := h ++ [x]
  if size < h2.length then h2.drop (h2.length - size) else h2

/-- The `row` construction of `SharedState.update`. -/
def mkRow (p : GpsPayload) (s_m : ℚ) (t : LapTiming) (err : ℚ)
    (driver : String) : RowData :=
  { lat := p.lat, lon := p.lon, ts_ns := p.ts_ns, track_s_m := s_m,
    lap_distance_m := if t.armed then some t.lap_progress_m else none,
    track_error_m := err, driver := driver }

/-- `SharedState.update`.  The projection `s_m, self.last_seg_idx, err_m =
self.track.project(lat, lon, self.last_seg_idx)` is abstracted by the
function argument `proj` (its output triple), assigned to the shared hint
*before* the outlier check; a fix with `err_m > MAX_TRACK_ERROR_M` then
returns without touching anything else.  `now` stands for `time.time()`. -/
def SharedState.update (st : SharedState) (payload : GpsPayload)
    (proj : ℚ → ℚ → Nat → ℚ × Nat × ℚ) (now : ℚ) :
    SharedState × List GpsEvent :=
  let pr := proj payload.lat payload.lon st.last_seg_idx
  let st1 := { st with last_seg_idx := pr.2.1 }
  if pr.2.2 > MAX_TRACK_ERROR_M then (st1, [])
  else
    let ts_sec :=
      match payload.ts_ns with
      | some t => if 0 < t then (t : ℚ) / 1000000000 else now
      | none => now
    let driver := st1.active_driver
    let timing0 := st1.timings driver
    let prev_splits := timing0.current_splits
    let upd := timing0.update ts_sec pr.1
    let timing1 := upd.1
    let rs1 := st1.records.ensure_driver driver now
    let session_id := rs1.current_session_id driver
    let tns := pyInt (ts_sec * 1000000000)
    let sevents := splitEventsFor driver session_id (timing1.lap_count + 1)
      prev_splits timing1.current_splits tns
    let row := mkRow payload pr.1 timing1 pr.2.2 driver
    match upd.2 with
    | some lap =>
      let lapRow : LapRowR :=
        { lap_number := lap.lap_number, lap_time_sec := lap.lap_time_sec,
          splits_sec := lap.splits_sec,
          completed_at_sec := lap.completed_at_sec,
          driver := driver, session_id := session_id }
      ({ st1 with
          timings := fun n => if n = driver then timing1 else st1.timings n
          records := rs1.add_lap driver lapRow now
          latest := some row
          seq := st1.seq + 1
          history := pushHistory st1.history st1.history_size
            (payload.lat, payload.lon) },
       sevents ++ [GpsEvent.lapEv driver session_id lap])
    | none =>
      ({ st1 with
          timings := fun n => if n = driver then timing1 else st1.timings n
          records := rs1
          latest := some row
          seq := st1.seq + 1
          history := pushHistory st1.history st1.history_size
            (payload.lat, payload.lon) },
       sevents)

/-- C8: a GPS fix whose projection error exceeds `MAX_TRACK_ERROR_M`
(120 m) is discarded before timing — the per-driver timing map, the records
store, `seq`, `latest` and `history` are unchanged and no split or lap event
is emitted. -/
theorem c8_outlier_fix_discarded (st : SharedState) (payload : GpsPayload)
    (proj : ℚ → ℚ → Nat → ℚ × Nat × ℚ) (now : ℚ)
    (herr : (proj payload.lat payload.lon st.last_seg_idx).2.2 > MAX_TRACK_ERROR_M) :
    (st.update payload proj now).1.timings = st.timings
    ∧ (st.update payload proj now).1.records = st.records
    ∧ (st.update payload proj now).1.seq = st.seq
    ∧ (st.update payload proj now).1.latest = st.latest
    ∧ (st.update payload proj now).1.history = st.history
    ∧ (st.update payload proj now).2 = [] := by
  unfold SharedState.update
  simp only
  rw [if_pos herr]
  exact ⟨rfl, rfl, rfl, rfl, rfl, rfl⟩

/-- C10: the rejected fix still wrote the projection hint — the post-update
state is exactly the pre-update state with `last_seg_idx` replaced by the
projected segment index, so the hint is the only state a rejected fix
changes (and it seeds the projection of every subsequent fix). -/
theorem c10_rejected_fix_only_moves_hint (st : SharedState) (payload : GpsPayload)
    (proj : ℚ → ℚ → Nat → ℚ × Nat × ℚ) (now : ℚ)
    (herr : (proj payload.lat payload.lon st.last_seg_idx).2.2 > MAX_TRACK_ERROR_M) :
    (st.update payload proj now).1
      = { st with last_seg_idx := (proj payload.lat payload.lon st.last_seg_idx).2.1 }
    ∧ (st.update payload proj now).2 = [] := by
  unfold SharedState.update
  simp only
  rw [if_pos herr]
  exact ⟨rfl, rfl⟩

/-- Concrete shared state for the C8/C10 witnesses. -/
def stSharedW : SharedState :=
  { last_seg_idx := 0, seq := 5, latest := none, history := [(1, 2)],
    history_size := 600, active_driver := "Beerens",
    timings := fun _ => LapTiming.init 300, records := ⟨[]⟩ }

/-- Projection stub for the witnesses: segment 3 at 121 m error. -/
def projW : ℚ → ℚ → Nat → ℚ × Nat × ℚ := fun _ _ _ => (42, 3, 121)

/-- C8, witness: the 121 m-error fix leaves timing, records, `seq`, `latest`
and `history` of `stSharedW` unchanged and emits nothing. -/
theorem c8_outlier_fix_discarded_witness :
    (stSharedW.update ⟨7, 8, none⟩ projW 0).1.timings = stSharedW.timings
    ∧ (stSharedW.update ⟨7, 8, none⟩ projW 0).1.records = stSharedW.records
    ∧ (stSharedW.update ⟨7, 8, none⟩ projW 0).1.seq = stSharedW.seq
    ∧ (stSharedW.update ⟨7, 8, none⟩ projW 0).1.latest = stSharedW.latest
    ∧ (stSharedW.update ⟨7, 8, none⟩ projW 0).1.history = stSharedW.history
    ∧ (stSharedW.update ⟨7, 8, none⟩ projW 0).2 = [] :=
  c8_outlier_fix_discarded stSharedW ⟨7, 8, none⟩ projW 0
    (by norm_num [projW, MAX_TRACK_ERROR_M])

/-- C10, witness: the same rejected fix moved the hint from segment 0 to the
projected segment 3 and changed nothing else. -/
theorem c10_rejected_fix_only_moves_hint_witness :
    (stSharedW.update ⟨7, 9, none⟩ projW 0).1
        = { stSharedW with last_seg_idx := (projW 7 9 stSharedW.last_seg_idx).2.1 }
    ∧ (stSharedW.update ⟨7, 9, none⟩ projW 0).2 = []
    ∧ (projW 7 9 stSharedW.last_seg_idx).2.1 = 3
    ∧ stSharedW.last_seg_idx ≠ 3 :=
  ⟨(c10_rejected_fix_only_moves_hint stSharedW ⟨7, 9, none⟩ projW 0
      (by norm_num [projW, MAX_TRACK_ERROR_M])).1,
   (c10_rejected_fix_only_moves_hint stSharedW ⟨7, 9, none⟩ projW 0
      (by norm_num [projW, MAX_TRACK_ERROR_M])).2,
   rfl, by decide⟩

/-! ## Chunked multi-address read (`ssm_logger.py`, `read_chunked`) -/

/-- The `for _ in range(max(1, retries))` retry loop around
`client.read_multiple(chunk)`.  The serial link is modelled by the oracle
`ok attempt chunk` (whether that attempt succeeds); `t` is a global attempt
counter threaded through the run so distinct attempts can behave
differently.  Returns whether any attempt succeeded and the next counter. -/
def tryReads (ok : Nat → List Nat → Bool) (chunk : List Nat) :
    Nat → Nat → Bool × Nat
  | t, 0 => (false, t)
  | t, r + 1 => if ok t chunk then (true, t + 1) else tryReads ok chunk (t + 1) r

/-- The `while i < len(addresses)` loop of `read_chunked`, on the remaining
address suffix.  `val a` is the byte the ECU holds at address `a` (a
successful `read_multiple` returns `{addr: byte}` pairs for its chunk).  The
result also carries the list of successfully read chunks, which in the code
are exactly the `out.update(...)` calls.  On success the loop advances past
the chunk; on sustained failure with chunk size > 1 it halves the size
(`max(1, size // 2)`) and retries the same prefix; at size 1 it skips the
address in best-effort mode and re-raises the last error otherwise.  A zero
`size` (possible only for `chunk_size = 0`, which no caller passes) would
never advance — the Python loop would not terminate — and is modelled as an
error. -/
def read_chunked_go (ok : Nat → List Nat → Bool) (val : Nat → Nat)
    (retries : Nat) (best_effort : Bool) :
    List Nat → Nat → Nat → Except Unit (List (Nat × Nat) × List (List Nat))
  | [], _, _ => .ok ([], [])
  | a :: rest, chunk_size, t =>
    let size := min chunk_size (a :: rest).length
    if hsz : size = 0 then .error ()
    else
      let chunk := (a :: rest).take size
      let tr := tryReads ok chunk t (max 1 retries)
      if tr.1 then
        match read_chunked_go ok val retries best_effort
            ((a :: rest).drop size) chunk_size tr.2 with
        | .ok r => .ok (chunk.map (fun x => (x, val x)) ++ r.1, chunk :: r.2)
        | .error e => .error e
      else if 1 < size then
        read_chunked_go ok val retries best_effort (a :: rest) (max 1 (size / 2)) tr.2
      else if best_effort then
        read_chunked_go ok val retries best_effort ((a :: rest).drop 1) chunk_size tr.2
      else .error ()
termination_by rem c _ => (rem.length, c)
decreasing_by
  · apply Prod.Lex.left
    simp only [List.length_drop, List.length_cons]
    omega
  · apply Prod.Lex.right
    simp only [List.length_cons] at hsz ⊢
    omega
  · apply Prod.Lex.left
    simp only [List.length_drop, List.length_cons]
    omega

/-- `read_chunked`: run the loop from the full address list with a fresh
attempt counter and return the accumulated `map<addr, byte>`. -/
def read_chunked (ok : Nat → List Nat → Bool) (val : Nat → Nat)
    (addresses : List Nat) (chunk_size : Nat) (retries : Nat)
    (best_effort : Bool) : Except Unit (List (Nat × Nat)) :=
  match read_chunked_go ok val retries best_effort addresses chunk_size 0 with
  | .ok r => .ok r.1
  | .error e => .error e

/-- In best-effort mode the loop always returns a map whose entries carry
the read byte of their own address and whose keys are exactly the union of
the successfully read chunks.  Strong induction on `rem.length + c`, the
loop's termination measure. -/
theorem read_chunked_go_best_effort (ok : Nat → List Nat → Bool)
    (val : Nat → Nat) (retries : Nat) :
    ∀ (n : Nat) (rem : List Nat) (c t : Nat), rem.length + c ≤ n → 1 ≤ c →
    ∃ m chs, read_chunked_go ok val retries true rem c t = .ok (m, chs)
      ∧ (∀ p ∈ m, p.2 = val p.1 ∧ p.1 ∈ rem)
      ∧ (∀ x, (∃ v, (x, v) ∈ m) ↔ ∃ ch ∈ chs, x ∈ ch) := by
  intro n
  induction n with
  | zero =>
    intro rem c t hle hc
    omega
  | succ n ih =>
    intro rem c t hle hc
    match rem with
    | [] =>
      refine ⟨[], [], by rw [read_chunked_go], by simp, by simp⟩
    | a :: rest =>
      rw [read_chunked_go]
      have hb : (a :: rest).length = rest.length + 1 := rfl
      have hsz : ¬(min c (a :: rest).length = 0) := by
        omega
      rw [dif_neg hsz]
      cases htr : (tryReads ok ((a :: rest).take (min c (a :: rest).length)) t
          (max 1 retries)).1 with
      | true =>
        rw [if_pos htr]
        have hlen : ((a :: rest).drop (min c (a :: rest).length)).length + c ≤ n := by
          simp only [List.length_drop]
          omega
        obtain ⟨m1, chs1, heq, hval, hkeys⟩ :=
          ih ((a :: rest).drop (min c (a :: rest).length)) c
            (tryReads ok ((a :: rest).take (min c (a :: rest).length)) t
              (max 1 retries)).2 hlen hc
        rw [heq]
        refine ⟨_, _, rfl, ?_, ?_⟩
        · intro p hp
          rcases List.mem_append.mp hp with h | h
          · obtain ⟨x, hx, rfl⟩ := List.mem_map.mp h
            exact ⟨rfl, List.mem_of_mem_take hx⟩
          · obtain ⟨h1, h2⟩ := hval p h
            exact ⟨h1, List.mem_of_mem_drop h2⟩
        · intro x
          constructor
          · rintro ⟨v, hv⟩
            rcases List.mem_append.mp hv with h | h
            · obtain ⟨y, hy, hxy⟩ := List.mem_map.mp h
              exact ⟨_, List.mem_cons_self _ _, by
                cases hxy
                exact hy⟩
            · obtain ⟨ch, hch, hx⟩ := (hkeys x).mp ⟨v, h⟩
              exact ⟨ch, List.mem_cons_of_mem _ hch, hx⟩
          · rintro ⟨ch, hch, hx⟩
            rcases List.mem_cons.mp hch with rfl | hch
            · exact ⟨val x, List.mem_append.mpr (Or.inl
                (List.mem_map.mpr ⟨x, hx, rfl⟩))⟩
            · obtain ⟨v, hv⟩ := (hkeys x).mpr ⟨ch, hch, hx⟩
              exact ⟨v, List.mem_append.mpr (Or.inr hv)⟩
      | false =>
        rw [if_neg (by rw [htr]; simp)]
        by_cases hgt : 1 < min c (a :: rest).length
        · rw [if_pos hgt]
          have hlen : (a :: rest).length + max 1 (min c (a :: rest).length / 2) ≤ n := by
            omega
          obtain ⟨m1, chs1, heq, hval, hkeys⟩ :=
            ih (a :: rest) (max 1 (min c (a :: rest).length / 2)) _ hlen (by omega)
          rw [heq]
          exact ⟨m1, chs1, rfl, hval, hkeys⟩
        · rw [if_neg hgt, if_pos rfl]
          have hlen : ((a :: rest).drop 1).length + c ≤ n := by
            simp only [List.length_drop]
            omega
          obtain ⟨m1, chs1, heq, hval, hkeys⟩ := ih ((a :: rest).drop 1) c _ hlen hc
          rw [heq]
          refine ⟨m1, chs1, rfl, ?_, hkeys⟩
          intro p hp
          obtain ⟨h1, h2⟩ := hval p hp
          exact ⟨h1, List.mem_of_mem_drop h2⟩

/-- C9: `read_chunked` returns a map containing exactly the addresses whose
multi-reads succeeded — in best-effort mode it never raises, every entry maps
an address to its read byte and the key set is the union of the successful
chunks; on sustained failure of a chunk of size > 1 the loop halves the
chunk size (`max(1, size // 2)`) and retries the same prefix; once the chunk
size is 1, best-effort mode skips that single address and advances while
strict mode raises the last error. -/
theorem c9_read_chunked_adaptive :
    (∀ (ok : Nat → List Nat → Bool) (val : Nat → Nat)
        (retries : Nat) (addresses : List Nat) (chunk_size : Nat),
      1 ≤ chunk_size →
      ∃ m chs,
        read_chunked_go ok val retries true addresses chunk_size 0 = .ok (m, chs)
        ∧ read_chunked ok val addresses chunk_size retries true = .ok m
        ∧ (∀ p ∈ m, p.2 = val p.1 ∧ p.1 ∈ addresses)
        ∧ (∀ x, (∃ v, (x, v) ∈ m) ↔ ∃ ch ∈ chs, x ∈ ch))
    ∧ (∀ (ok : Nat → List Nat → Bool) (val : Nat → Nat) (retries : Nat)
        (be : Bool) (a : Nat) (rest : List Nat) (c t : Nat),
      (tryReads ok ((a :: rest).take (min c (a :: rest).length)) t
          (max 1 retries)).1 = false →
      1 < min c (a :: rest).length →
      read_chunked_go ok val retries be (a :: rest) c t
        = read_chunked_go ok val retries be (a :: rest)
            (max 1 (min c (a :: rest).length / 2))
            (tryReads ok ((a :: rest).take (min c (a :: rest).length)) t
              (max 1 retries)).2)
    ∧ (∀ (ok : Nat → List Nat → Bool) (val : Nat → Nat) (retries : Nat)
        (a : Nat) (rest : List Nat) (c t : Nat),
      (tryReads ok ((a :: rest).take (min c (a :: rest).length)) t
          (max 1 retries)).1 = false →
      min c (a :: rest).length = 1 →
      read_chunked_go ok val retries true (a :: rest) c t
        = read_chunked_go ok val retries true rest c
            (tryReads ok ((a :: rest).take (min c (a :: rest).length)) t
              (max 1 retries)).2
      ∧ read_chunked_go ok val retries false (a :: rest) c t = .error ()) := by
  refine ⟨?_, ?_, ?_⟩
  · intro ok val retries addresses chunk_size hc
    obtain ⟨m, chs, heq, hval, hkeys⟩ :=
      read_chunked_go_best_effort ok val retries
        (addresses.length + chunk_size) addresses chunk_size 0 (le_refl _) hc
    refine ⟨m, chs, heq, ?_, hval, hkeys⟩
    unfold read_chunked
    rw [heq]
  · intro ok val retries be a rest c t htr hgt
    rw [read_chunked_go]
    rw [dif_neg (by omega)]
    rw [if_neg (by rw [htr]; simp), if_pos hgt]
  · intro ok val retries a rest c t htr hone
    constructor
    · rw [read_chunked_go]
      rw [dif_neg (by omega)]
      rw [if_neg (by rw [htr]; simp), if_neg (by omega), if_pos rfl]
      rfl
    · rw [read_chunked_go]
      rw [dif_neg (by omega)]
      rw [if_neg (by rw [htr]; simp), if_neg (by omega), if_neg (by simp)]

/-- C9, witness: the best-effort characterization on addresses `[1, 2, 3]`
with a link accepting only chunks of length ≤ 2, and the strict-mode raise on
a permanently failing single address. -/
theorem c9_read_chunked_adaptive_witness :
    (∃ m chs,
      read_chunked_go (fun _ ch => ch.length ≤ 2) (fun a => a + 100) 2 true
          [1, 2, 3] 4 0 = .ok (m, chs)
      ∧ read_chunked (fun _ ch => ch.length ≤ 2) (fun a => a + 100) [1, 2, 3] 4 2 true
          = .ok m
      ∧ (∀ p ∈ m, p.2 = (fun a => a + 100) p.1 ∧ p.1 ∈ [1, 2, 3])
      ∧ (∀ x, (∃ v, (x, v) ∈ m) ↔ ∃ ch ∈ chs, x ∈ ch))
    ∧ read_chunked_go (fun _ _ => false) (fun a => a + 100) 2 false [7] 1 0
        = .error () :=
  ⟨c9_read_chunked_adaptive.1 (fun _ ch => ch.length ≤ 2) (fun a => a + 100) 2
      [1, 2, 3] 4 (by decide),
   (c9_read_chunked_adaptive.2.2 (fun _ _ => false) (fun a => a + 100) 2 7 [] 1 0
      (by decide) (by decide)).2⟩
